import Mathlib

/-!
# Verification of the poker table engine

A shallow embedding, in Lean 4, of the core of the `poker` repository:
the card wire format (`hand/card.go`), the pot ledger with side-pot
partitioning and payout (`table/pot.go`), and the table state machine
(`table/table.go`).  Go `int` values are modelled as `Int` where they can
move both ways, and as `Nat` where the code guarantees non-negativity
(pot contributions are guarded by a panic on negative amounts).
Go maps keyed by seat are modelled as a duplicate-free `List ℕ` of
occupied seats together with a total function defaulting to the zero
value off the domain; every map iteration in the modelled code is
order-independent (sums, maxima, existence checks) or explicitly sorted,
so this is a faithful determinization.
-/

namespace Poker

/-! ## Card wire format (`hand/card.go`) -/

/-- The thirteen rank characters, ascending, from `allRanks` in `hand/card.go`. -/
def rankChars : List Char := ['2', '3', '4', '5', '6', '7', '8', '9', 'T', 'J', 'Q', 'K', 'A']

/-- The four suit characters from `allSuits` in `hand/card.go`. -/
def suitChars : List Char := ['♠', '♥', '♦', '♣']

/-- `Rank.valid`: the rank string is one of the thirteen ranks
(`indexOf() != -1`). -/
def rankValid (c : Char) : Bool := rankChars.contains c

/-- `Suit.valid`: `strings.Contains("♠♥♦♣", string(s))`.  For a single rune
this holds exactly when the rune is one of the four suits: every byte of the
UTF-8 text `♠♥♦♣` is a non-ASCII byte and the offsets that start a valid
UTF-8 sequence are exactly the four aligned suit positions. -/
def suitValid (c : Char) : Bool := suitChars.contains c

/-- Number of bytes of the UTF-8 encoding of a rune; Go's
`for i, c := range string` advances the byte index `i` by this amount. -/
def utf8Len (c : Char) : Nat :=
  if c.val < 0x80 then 1 else if c.val < 0x800 then 2 else if c.val < 0x10000 then 3 else 4

/-- A `Card` is a rank/suit pair; both are single characters in the model,
mirroring the one-rune `Rank` and `Suit` strings of the Go `Card`. -/
structure Card where
  rank : Char
  suit : Char
  deriving DecidableEq, Repr

/-- `Card.MarshalText`: the two-character text `<rank><suit>`, modelled as a
character list. -/
def cardMarshalText (c : Card) : List Char := [c.rank, c.suit]

/-- The rune loop of `Card.UnmarshalText`: `i` is the running byte index,
and the rank (resp. suit) slot is filled when a valid rank (resp. suit) rune
is found at byte index 0 (resp. 1); any other rune position fails.  After the
loop the card is produced only when both slots were filled (the Go code
checks `rank == "" || suit == ""`). -/
def unmarshalLoop : List Char → Nat → Option Char → Option Char → Option Card
  | [], _, some r, some s => some ⟨r, s⟩
  | [], _, _, _ => none
  | c :: rest, i, r?, s? =>
    if i = 0 ∧ rankValid c then unmarshalLoop rest (i + utf8Len c) (some c) s?
    else if i = 1 ∧ suitValid c then unmarshalLoop rest (i + utf8Len c) r? (some c)
    else none

/-- `Card.UnmarshalText` on a rune string: run the loop from byte index 0
with both slots empty. -/
def cardUnmarshalText (cs : List Char) : Option Card := unmarshalLoop cs 0 none none
/-! ## Pot ledger (`table/pot.go`)

A pot is a Go map `seat → contributed chips`; we model it as the list of
map keys (`seats`, distinct in Go) together with a contribution function
that is zero off the map.  `contribute` panics on negative amounts, so
contributions are `ℕ`.  Every map iteration modelled below is
order-independent (sums, maxima, existence tests, dedup-then-sort), so
fixing an iteration order is a faithful determinization. -/

/-- The level-collecting loop of `Pot.sidePotAmounts`: skip zero
contributions, append each level not collected yet.  (The Go loop also
deletes zero-contribution seats from the map as a side effect; every
consumer guards on `contribution > 0`, so the deletion is observationally
irrelevant and is not modelled.) -/
def collectLevels (contrib : ℕ → ℕ) : List ℕ → List ℕ → List ℕ
  | [], acc => acc
  | s :: rest, acc =>
    if contrib s = 0 then collectLevels contrib rest acc
    else if contrib s ∈ acc then collectLevels contrib rest acc
    else collectLevels contrib rest (acc ++ [contrib s])

/-- `Pot.sidePotAmounts`: the distinct nonzero contribution levels, sorted
ascending (`sort.IntSlice(amounts).Sort()`). -/
def sidePotAmounts (seats : List ℕ) (contrib : ℕ → ℕ) : List ℕ :=
  (collectLevels contrib seats []).insertionSort (· ≤ ·)

/-- One bucket pot of `Pot.SidePots`: for the level `a` with previous level
`last`, a seat contributes `a - last` if its total contribution is `> last`
and `≥ a`, and `contribution - last` if its total lies strictly between
`last` and `a`; otherwise it is absent from the bucket (zero). -/
def bucketFn (seats : List ℕ) (contrib : ℕ → ℕ) (last a : ℕ) : ℕ → ℕ := fun s =>
  if s ∈ seats ∧ contrib s > last ∧ contrib s ≥ a then a - last
  else if s ∈ seats ∧ contrib s > last ∧ contrib s < a then contrib s - last
  else 0

/-- The bucket pots of `Pot.SidePots`, one per level of `sidePotAmounts`,
each carrying the previous level (`last = 0` for the first). -/
def bucketsAux (seats : List ℕ) (contrib : ℕ → ℕ) : List ℕ → ℕ → List (ℕ → ℕ)
  | [], _ => []
  | a :: rest, last => bucketFn seats contrib last a :: bucketsAux seats contrib rest a

/-- The all-in test inside `Pot.SidePots`: some seat of the current bucket
(positive bucket contribution) has bucket contribution plus contributions in
the side pots accumulated so far equal to its beginning stack. -/
def hasAllin (seats : List ℕ) (beginChips : ℕ → ℕ) (sofar : List (ℕ → ℕ))
    (b : ℕ → ℕ) : Prop :=
  ∃ s ∈ seats, 0 < b s ∧ b s + (sofar.map (fun p => p s)).sum = beginChips s

instance (seats : List ℕ) (beginChips : ℕ → ℕ) (sofar : List (ℕ → ℕ)) (b : ℕ → ℕ) :
    Decidable (hasAllin seats beginChips sofar b) :=
  List.decidableBEx _ seats

/-- Fold the current bucket into the last accumulated side pot
(`sidePots[last].contributions[seat] += chips`). -/
def updateLast : List (ℕ → ℕ) → (ℕ → ℕ) → List (ℕ → ℕ)
  | [], _ => []
  | [x], b => [fun s => x s + b s]
  | x :: y :: xs, b => x :: updateLast (y :: xs) b

/-- The merge loop of `Pot.SidePots`: bucket `i` starts a new side pot when
`lastAllIn || (lastAllIn && hasAllin) || i == 0` (the disjuncts are kept as
written in the source), otherwise it is folded into the previous side pot;
`lastAllIn` is the all-in test of the bucket just processed. -/
def mergeAux (seats : List ℕ) (beginChips : ℕ → ℕ) :
    List (ℕ → ℕ) → ℕ → Bool → List (ℕ → ℕ) → List (ℕ → ℕ)
  | [], _, _, acc => acc
  | b :: rest, i, lastAllIn, acc =>
    if lastAllIn = true ∨ (lastAllIn = true ∧ hasAllin seats beginChips acc b) ∨ i = 0 then
      mergeAux seats beginChips rest (i + 1)
        (decide (hasAllin seats beginChips acc b)) (acc ++ [b])
    else
      mergeAux seats beginChips rest (i + 1)
        (decide (hasAllin seats beginChips acc b)) (updateLast acc b)

/-- `Pot.SidePots(playerBeginChips)`: bucket the contributions at the
distinct nonzero levels, then merge buckets not preceded by a genuine
all-in. -/
def SidePots (seats : List ℕ) (contrib beginChips : ℕ → ℕ) : List (ℕ → ℕ) :=
  mergeAux seats beginChips
    (bucketsAux seats contrib (sidePotAmounts seats contrib) 0) 0 false []

/-- `Pot.Chips()`: the sum of all contributions. -/
def potChips (seats : List ℕ) (contrib : ℕ → ℕ) : ℕ := (seats.map contrib).sum

/-- The seats visited by the remainder loop of `Pot.resultsFromWinners`:
starting from `seatToCheck`, stepping by `seatToCheck = (seatToCheck+1) % 10`. -/
def hitList : ℕ → ℕ → List ℕ
  | 0, _ => []
  | fuel + 1, c => c :: hitList fuel ((c + 1) % 10)

/-- The seat reached after a number of steps of the remainder loop
(used only to split `hitList` across an addition of fuels). -/
def hitFrom : ℕ → ℕ → ℕ
  | 0, c => c
  | fuel + 1, c => hitFrom fuel ((c + 1) % 10)

/-- The remainder loop of `Pot.resultsFromWinners`, with explicit fuel:
while the remainder is positive, give one chip to `seatToCheck` whenever it
is a winning seat, then advance modulo 10.  Returns the extra-chip map and
the final remainder.  (The Go loop is unbounded; `distLoop_spec` shows that
whenever the remainder is at most the number of winning seats below 10, ten
iterations finish the loop, so any fuel `≥ 10` computes the loop's result.) -/
def distLoop (winners : List ℕ) : ℕ → ℕ → ℕ → (ℕ → ℕ) → ((ℕ → ℕ) × ℕ)
  | 0, _, rem, extra => (extra, rem)
  | fuel + 1, c, rem, extra =>
    if rem = 0 then (extra, rem)
    else if c ∈ winners then
      distLoop winners fuel ((c + 1) % 10) (rem - 1)
        (fun s => if s = c then extra s + 1 else extra s)
    else distLoop winners fuel ((c + 1) % 10) rem extra

/-- `Pot.resultsFromWinners` as the map from seat to chips awarded from this
pot: each winning seat receives `chips / len(winners)`, and the remainder
`chips % len(winners)` is distributed by the loop starting at `button % 10`. -/
def resultsFromWinners (winners : List ℕ) (chips button : ℕ) : ℕ → ℕ := fun s =>
  (if s ∈ winners then chips / winners.length else 0) +
    (distLoop winners 10 (button % 10) (chips % winners.length) (fun _ => 0)).1 s

/-- The high/low split branch of `Pot.payout` (taken when the restricted
low-hands map is nonempty and has winners): `highAmount := p.Chips()/2`,
incremented when `highAmount` (not the pot total) is odd; the high winners
split `highAmount`, the low winners split `p.Chips()/2`. -/
def payoutSplitResults (highWinners lowWinners : List ℕ) (chips button : ℕ) :
    (ℕ → ℕ) × (ℕ → ℕ) :=
  let highAmount0 := chips / 2
  let highAmount := if highAmount0 % 2 = 1 then highAmount0 + 1 else highAmount0
  (resultsFromWinners highWinners highAmount button,
   resultsFromWinners lowWinners (chips / 2) button)


/-! ## Table state machine (`table/table.go`)

The `Table` aggregate.  Chip amounts here are Go `int` values that can be
compared and subtracted, so they are modelled as `Int`.  The seat→state Go
map is the list of occupied seats plus a total function; function values at
unoccupied seats are never read.  The concrete `Game` implementations
(hole/board cards, forced-bet schedule, fixed-limit sizing) are not part of
the sources; where the table consults them the model takes the consulted
value as a parameter (the forced-bet amount of a seat, the fixed-limit
amount per round). -/

/-- The `Action` constants of `table/action.go` (`Stand` is used only to
leave the table and is never produced by `ValidActions`). -/
inductive Act
  | fold
  | check
  | call
  | bet
  | raise
  | stand
  deriving DecidableEq, Repr

/-- Limit from `table/config.go`: NoLimit / PotLimit / FixedLimit. -/
inductive LimitKind
  | noLimit
  | potLimit
  | fixedLimit
  deriving DecidableEq, Repr

/-- `Stakes` from `table/config.go`. -/
structure Stakes where
  smallBet : Int
  bigBet : Int
  ante : Int
  straddle : Bool
  deriving DecidableEq, Repr

/-- A hole card: a card plus its visibility flag (`HoleCard`). -/
structure HoleCardM where
  card : Card
  exposed : Bool
  deriving DecidableEq, Repr

/-- `PlayerState`: the per-seat per-hand record.  The identity of the
seated `Player` is modelled by its id (`pid`); the other profile accessors
(nickname, country, hosted, play duration) are functions of the player
object and are carried by the id. -/
structure PlayerSt where
  pid : Int
  holeCards : List HoleCardM
  chips : Int
  beginChips : Int
  acted : Bool
  out : Bool
  allin : Bool
  canRaise : Bool
  roundPot : Int
  potTotal : Int
  stand : Bool
  straddle : Bool
  deriving DecidableEq, Repr

/-- The `Table` aggregate (`opts` is inlined: game tag, limit, stakes and
seat count; `fixedLimit` stands for the `game().FixedLimit(opts, round)`
callback whose implementation is not part of the sources; `sidePots` is the
cached side-pot view, carried as the contribution maps). -/
structure TableSt where
  gameTag : ℕ
  limit : LimitKind
  stakes : Stakes
  numOfSeats : ℕ
  fixedLimit : ℕ → Int
  deck : List Card
  button : Int
  smallBetSeat : Int
  bigBetSeat : Int
  utgSeat : Int
  action : Int
  round : ℕ
  minRaise : Int
  board : List Card
  seats : List ℕ
  players : ℕ → PlayerSt
  contrib : ℕ → Int
  sidePots : List (ℕ → Int)
  startedHand : Bool
  showdown : Bool

/-- The seat of the current player: `t.players[t.Action()]` is non-nil
exactly when the action seat is occupied. -/
def currentPlayerSeat (t : TableSt) : Option ℕ :=
  if 0 ≤ t.action ∧ t.action.toNat ∈ t.seats then some t.action.toNat else none

/-- `Table.CurrentPlayer`: the player state the action is on, if any. -/
def CurrentPlayer (t : TableSt) : Option PlayerSt :=
  (currentPlayerSeat t).map t.players

/-- The largest contribution in the pot (`most` in `Pot.Outstanding`,
starting from 0). -/
def potMost (t : TableSt) : Int :=
  (t.seats.map t.contrib).foldl max 0

/-- `Pot.Outstanding(seat)`: the largest contribution minus the seat's. -/
def potOutstanding (t : TableSt) (seat : ℕ) : Int :=
  potMost t - t.contrib seat

/-- `Pot.Chips()` over the table's pot (`Int` valued). -/
def tablePotChips (t : TableSt) : Int :=
  (t.seats.map t.contrib).sum

/-- `Table.Outstanding`: `-1` without a current player, `0` for an all-in
or folded current player, otherwise the pot's outstanding amount. -/
def Outstanding (t : TableSt) : Int :=
  match currentPlayerSeat t with
  | none => -1
  | some seat =>
    if (t.players seat).allin ∨ (t.players seat).out then 0
    else potOutstanding t seat

/-- `Table.MaxRaise`: `-1` without a current player; otherwise the limit's
cap (stack for NoLimit, `pot + 2·outstanding + roundPot` for PotLimit, the
game's fixed amount for FixedLimit) clamped above by `chips + roundPot`,
and 0 when the stack is exhausted. -/
def MaxRaise (t : TableSt) : Int :=
  match currentPlayerSeat t with
  | none => -1
  | some seat =>
    let player := t.players seat
    let outstanding := Outstanding t
    let bettableChips := player.chips + player.roundPot
    if bettableChips ≤ 0 then 0
    else
      let mx : Int :=
        match t.limit with
        | .noLimit => bettableChips
        | .potLimit => tablePotChips t + outstanding + outstanding + player.roundPot
        | .fixedLimit => t.fixedLimit t.round
      if mx > bettableChips then bettableChips else mx

/-- `Table.MinRaise`: `-1` without a current player; 1 for FixedLimit;
otherwise `2·bigBet` preflop (resp. `bigBet` postflop) when no raise has
occurred this round, else `outstanding + minRaise + roundPot`; clamped
above by `chips + roundPot`. -/
def MinRaise (t : TableSt) : Int :=
  match currentPlayerSeat t with
  | none => -1
  | some seat =>
    let player := t.players seat
    let outstanding := Outstanding t
    let bettableChips := player.chips + player.roundPot
    match t.limit with
    | .fixedLimit => 1
    | _ =>
      let mn : Int :=
        if t.round = 0 then
          if t.minRaise = 0 then 2 * t.stakes.bigBet
          else outstanding + t.minRaise + player.roundPot
        else
          if t.minRaise = 0 then t.stakes.bigBet
          else outstanding + t.minRaise + player.roundPot
      if bettableChips < mn then bettableChips else mn

/-- `Table.ValidActions`.  `none` models the nil-pointer dereference when no
player occupies the action seat (`Next` only calls it with one). -/
def ValidActions (t : TableSt) : Option (List Act) :=
  match currentPlayerSeat t with
  | none => none
  | some seat =>
    let player := t.players seat
    if player.allin ∨ player.out then some []
    else if Outstanding t = 0 then some [Act.fold, Act.check, Act.bet]
    else if ¬player.canRaise then some [Act.fold, Act.call]
    else if player.chips ≤ Outstanding t then some [Act.fold, Act.call]
    else some [Act.fold, Act.call, Act.raise]

/-- `Table.resetActed`: clear `acted` on every seated player. -/
def resetActed (t : TableSt) : TableSt :=
  { t with players := fun s =>
      if s ∈ t.seats then { t.players s with acted := false } else t.players s }

/-- `Table.resetRoundPot`: clear `roundPot` on every seated player. -/
def resetRoundPot (t : TableSt) : TableSt :=
  { t with players := fun s =>
      if s ∈ t.seats then { t.players s with roundPot := 0 } else t.players s }

/-- `Table.resetCanRaise(seat)`: every seated player's `canRaise` becomes
`s != seat` (so `seat` itself, or nobody for `seat = -1`, is cleared). -/
def resetCanRaise (t : TableSt) (seat : Int) : TableSt :=
  { t with players := fun s =>
      if s ∈ t.seats then { t.players s with canRaise := decide (¬((s : Int) = seat)) }
      else t.players s }

/-- `PlayerState.addToPot(chips, deduct, r)`: preflop the `deduct` (ante)
part is excluded from `roundPot`; the per-hand `pot` total always grows by
`chips`.  The chip stack is not touched here. -/
def playerAddToPot (p : PlayerSt) (chips deduct : Int) (r : ℕ) : PlayerSt :=
  if r = 0 then
    { p with roundPot := p.roundPot + (chips - deduct), potTotal := p.potTotal + chips }
  else { p with roundPot := p.roundPot + chips, potTotal := p.potTotal + chips }

/-- `Table.addToPot(seat, chips)`: clamp to the stack (and mark all-in when
the clamp fires), move the chips from the stack into the pot.  (`Pot
.contribute` panics on a negative amount; the model applies the addition
unconditionally, which agrees with every non-panicking execution.) -/
def addToPot (t : TableSt) (seat : ℕ) (chips : Int) : TableSt :=
  let p := t.players seat
  let c := if chips ≥ p.chips then p.chips else chips
  let p1 := { p with
    chips := p.chips - c,
    allin := if chips ≥ p.chips then true else p.allin }
  { t with
    players := fun s => if s = seat then p1 else t.players s,
    contrib := fun s => if s = seat then t.contrib s + c else t.contrib s }

/-- `countState`: the number of all-in players, and of players who are
neither all-in nor out and have acted. -/
def countAllin (t : TableSt) : ℕ :=
  (t.seats.filter (fun s => (t.players s).allin)).length

def countRich (t : TableSt) : ℕ :=
  (t.seats.filter (fun s =>
    !(t.players s).allin && !(t.players s).out && (t.players s).acted)).length

/-- `isNobodyCanPlay`: fewer than two players can still act and every
player has acted, folded or gone all-in. -/
def isNobodyCanPlay (t : TableSt) : Prop :=
  (t.seats.filter (fun s => !(t.players s).allin && !(t.players s).out)).length < 2 ∧
  (t.seats.filter (fun s =>
    (t.players s).acted || (t.players s).out || (t.players s).allin)).length
    = t.seats.length

instance (t : TableSt) : Decidable (isNobodyCanPlay t) := by
  unfold isNobodyCanPlay; infer_instance

/-- The `case Fold` body of `handleAction`: `p.out = true`. -/
def commitFold (t : TableSt) (seat : ℕ) : TableSt :=
  { t with players := fun s =>
      (if s = seat then { t.players s with out := true } else t.players s) }

/-- The `case Call` body of `handleAction`: record `min(outstanding, chips)`
in the player's round/hand totals, then move the (stack-clamped)
outstanding amount into the pot. -/
def commitCall (t : TableSt) (seat : ℕ) : TableSt :=
  let p := t.players seat
  let outstanding := Outstanding t
  let p1 := if outstanding > p.chips then playerAddToPot p p.chips 0 t.round
            else playerAddToPot p outstanding 0 t.round
  let t2 := { t with players := fun s => (if s = seat then p1 else t.players s) }
  addToPot t2 seat outstanding

/-- The `case Bet` body of `handleAction`: move `chips - roundPot` into the
pot, clear everyone's `acted`, and when the bet reaches `minRaise` reopen
raising for the others and record the new `minRaise`. -/
def commitBet (t : TableSt) (seat : ℕ) (chips : Int) : TableSt :=
  let p := t.players seat
  let betChips := chips - p.roundPot
  let p1 := playerAddToPot p betChips 0 t.round
  let t2 := { t with players := fun s => (if s = seat then p1 else t.players s) }
  let t3 := addToPot t2 seat betChips
  let t4 := resetActed t3
  if betChips ≥ t.minRaise then
    { (resetCanRaise t4 (seat : Int)) with minRaise := betChips }
  else t4

/-- The `case Raise` body of `handleAction`: when the increment over the
call amount reaches `minRaise` (a full raise), reopen raising for the
others and record the new `minRaise`; then move `chips - roundPot` into the
pot and clear everyone's `acted` — the `resetActed()` runs for every
raise, full or short. -/
def commitRaise (t : TableSt) (seat : ℕ) (chips : Int) : TableSt :=
  let raiseChips := chips - (t.players seat).roundPot
  let t2 :=
    if raiseChips - Outstanding t ≥ t.minRaise then
      { (resetCanRaise t (seat : Int)) with minRaise := raiseChips - Outstanding t }
    else t
  let p1 := playerAddToPot (t2.players seat) raiseChips 0 t2.round
  let t3 := { t2 with players := fun s => (if s = seat then p1 else t2.players s) }
  let t4 := addToPot t3 seat raiseChips
  resetActed t4

/-- The common tail of `handleAction`: the actor's `canRaise` is cleared
and its `acted` set. -/
def actorFlags (t : TableSt) (seat : ℕ) : TableSt :=
  { t with players := fun s =>
      (if s = seat then { t.players s with canRaise := false, acted := true }
       else t.players s) }

/-- The early-showdown check at the end of `handleAction`: when nobody can
play on and at least one all-in faces a contender, the hand goes to
showdown.  (The Go code also refreshes the side-pot cache and exposes the
hole cards here, and hands the accepted action to `Player.SaveAction`;
chip-neutral bookkeeping not needed by the claims.) -/
def showdownCheck (t : TableSt) : TableSt :=
  if isNobodyCanPlay t ∧ (1 < countAllin t ∨ (countAllin t = 1 ∧ 0 < countRich t)) then
    { t with showdown := true }
  else t

/-- The `switch a` of `handleAction`, dispatching to the case bodies
(`Check` and the unreachable `Stand` fall through with no state change). -/
def commitAction (t : TableSt) (seat : ℕ) (a : Act) (chips : Int) : TableSt :=
  match a with
  | .fold => commitFold t seat
  | .check => t
  | .call => commitCall t seat
  | .bet => commitBet t seat chips
  | .raise => commitRaise t seat chips
  | .stand => t

/-- `Table.handleAction(seat, p, a, chips, timeout)` with `seat` the action
seat and `p` the current player, as `Next` calls it.  `none` models the
returned `ErrInvalidAction` / `ErrInvalidBet` / `ErrInvalidRaise` (the Go
code returns these before mutating any state); the `switch a` bodies are
the `commit…` definitions above. -/
def handleAction (t : TableSt) (a : Act) (chips : Int) : Option TableSt :=
  match currentPlayerSeat t with
  | none => none
  | some seat =>
    match ValidActions t with
    | none => none
    | some acts =>
      if a ∉ acts then none
      else if (a = Act.bet ∨ a = Act.raise) ∧ (chips < MinRaise t ∨ chips > MaxRaise t) then
        none
      else
        some (showdownCheck (actorFlags (commitAction t seat a chips) seat))

/-- The forced-bet application of `setUpRound` for one seat: the amount the
game schedules for this seat (a parameter here, the `Game` implementations
are not part of the sources) is clamped to the stack, moved into the pot,
and recorded in the player's round/hand totals with the ante deducted
preflop. -/
def applyForcedBet (t : TableSt) (seat : ℕ) (amount : Int) : TableSt :=
  if seat ∈ t.seats then
    let chips := if amount > (t.players seat).chips then (t.players seat).chips else amount
    let t1 := addToPot t seat chips
    { t1 with players := fun s =>
        if s = seat then playerAddToPot (t1.players s) chips t.stakes.ante t.round
        else t1.players s }
  else t

/-- `Table.nextSeat(seat, playing)` with explicit fuel `numOfSeats`:
the nearest seat at or after `seat` (mod seat count) that is occupied and,
when `playing`, not out, not all-in and not yet acted; `-1` if none. -/
def nextSeatAux (t : TableSt) (playing : Bool) : ℕ → ℕ → Int
  | 0, _ => -1
  | fuel + 1, seat =>
    if seat ∈ t.seats ∧
        (playing = false ∨ (¬(t.players seat).out ∧ ¬(t.players seat).allin ∧
          ¬(t.players seat).acted)) then (seat : Int)
    else nextSeatAux t playing fuel ((seat + 1) % t.numOfSeats)

def nextSeat (t : TableSt) (seat : ℕ) (playing : Bool) : Int :=
  nextSeatAux t playing t.numOfSeats (seat % t.numOfSeats)

/-- `Table.doOneStraddleBet(seat, category)` when the straddle fires (the
seat exists and has volunteered): `minRaise` becomes half the scheduled
straddle (2·, 4·, 8· big bets for categories 1–3) before clamping, the
clamped amount moves into the pot, and the action passes the straddler.
The straddle-log append is not modelled (nothing reads it here). -/
def doOneStraddleBet (t : TableSt) (seat : ℕ) (category : ℕ) : TableSt :=
  if seat ∈ t.seats ∧ (t.players seat).straddle then
    let betChips0 : Int :=
      match category with
      | 1 => 2 * t.stakes.bigBet
      | 2 => 2 * 2 * t.stakes.bigBet
      | 3 => 2 * 2 * 2 * t.stakes.bigBet
      | _ => 0
    let t1 := { t with minRaise := betChips0 / 2 }
    let betChips := if betChips0 > (t.players seat).chips then (t.players seat).chips
                    else betChips0
    let t2 := addToPot t1 seat betChips
    let t3 := { t2 with players := fun s =>
        (if s = seat then playerAddToPot (t2.players s) betChips 0 t2.round
         else t2.players s) }
    { t3 with
      players := fun s =>
        if s = seat then { t3.players s with straddle := false } else t3.players s,
      action := nextSeat t3 (seat + 1) true }
  else t

/-- `Table.setUpHand`: fresh deck, round 0, button advanced, empty pot,
board cleared; every seated player's hole cards cleared, `out`/`allin`
cleared and `beginChips` recorded from the current stack. -/
def setUpHandM (t : TableSt) (newDeck : List Card) : TableSt :=
  { t with
    deck := newDeck,
    round := 0,
    button := nextSeat t ((t.button + 1).toNat) false,
    action := -1,
    contrib := fun _ => 0,
    board := [],
    players := fun s =>
      if s ∈ t.seats then
        { t.players s with
          holeCards := [], out := false, allin := false,
          beginChips := (t.players s).chips }
      else t.players s }

/-- The chip-neutral bookkeeping between rounds done by `Next` and
`setUpRound`: advance the round, clear the players' round pots and `acted`
flags, reset `minRaise` to 0 and `canRaise` for everybody. -/
def roundBookkeeping (t : TableSt) : TableSt :=
  { (resetCanRaise (resetActed (resetRoundPot { t with round := t.round + 1 })) (-1)) with
      minRaise := 0 }

/-- One chip-moving or cursor-moving event of a started hand, as issued by
`Next`/`setUpRound`: a player action at the current action seat, a forced
bet, a straddle, an action-cursor move, or the between-rounds bookkeeping. -/
inductive HandStep
  | act (a : Act) (chips : Int)
  | forcedBet (seat : ℕ) (amount : Int)
  | straddleBet (seat : ℕ) (category : ℕ)
  | setAction (k : Int)
  | newRound
  deriving Repr

/-- Apply one step; a rejected action (`handleAction` returning an error)
leaves the table unchanged, as in the source. -/
def applyStep (t : TableSt) : HandStep → TableSt
  | .act a chips => (handleAction t a chips).getD t
  | .forcedBet seat amount => applyForcedBet t seat amount
  | .straddleBet seat category => doOneStraddleBet t seat category
  | .setAction k => { t with action := k }
  | .newRound => roundBookkeeping t

def applySteps (t : TableSt) : List HandStep → TableSt
  | [] => t
  | step :: rest => applySteps (applyStep t step) rest

/-- `Σ player.chips + pot.Chips()` over the seated players. -/
def chipTotal (t : TableSt) : Int :=
  (t.seats.map (fun s => (t.players s).chips + t.contrib s)).sum

/-- `Σ begin_chips` over the seated players. -/
def beginChipsSum (t : TableSt) : Int :=
  (t.seats.map (fun s => (t.players s).beginChips)).sum

/-! ### Snapshot serialization (`tableJSON`, `PlayerStateJSON`)

`Table.MarshalJSON` renders the table into `tableJSON` (players keyed by
decimal seat strings — a bijection, modelled as the seat list plus a
function; the pot as `PotJSON` with its contributions and a `chips` total
computed at marshal time; each cached side pot likewise).
`Table.UnmarshalJSON` reads the same object back, rebuilding the players
through the registered id→player factory.  The profile accessors are
functions of the player produced by the factory, hence of the id. -/

structure PlayerStJSON where
  pid : Int
  roundPot : Int
  potTotal : Int
  holeCards : List HoleCardM
  chips : Int
  beginChips : Int
  acted : Bool
  out : Bool
  allin : Bool
  canRaise : Bool
  stand : Bool
  straddle : Bool
  deriving DecidableEq, Repr

/-- `PlayerState.PlayerStateJSON()`: every field is copied except
`Straddle`, which is never assigned and keeps its zero value `false`. -/
def playerStateJSON (p : PlayerSt) : PlayerStJSON :=
  { pid := p.pid, roundPot := p.roundPot, potTotal := p.potTotal,
    holeCards := p.holeCards, chips := p.chips, beginChips := p.beginChips,
    acted := p.acted, out := p.out, allin := p.allin, canRaise := p.canRaise,
    stand := p.stand, straddle := false }

/-- `PlayerState.UnmarshalJSON`: rebuild the player from the id via the
registered factory and copy every serialized field, `Straddle` included. -/
def playerOfJSON (pj : PlayerStJSON) : PlayerSt :=
  { pid := pj.pid, holeCards := pj.holeCards, chips := pj.chips,
    beginChips := pj.beginChips, acted := pj.acted, out := pj.out,
    allin := pj.allin, canRaise := pj.canRaise, roundPot := pj.roundPot,
    potTotal := pj.potTotal, stand := pj.stand, straddle := pj.straddle }

/-- The `tableJSON` snapshot object: options (game, limit, stakes, seat
count), deck, button, action, round, `minRaise`, board, players, pot
(contributions plus computed chips), side pots, startedHand and the three
blind seats. -/
structure TableJSONM where
  gameTag : ℕ
  limit : LimitKind
  stakes : Stakes
  numOfSeats : ℕ
  deck : List Card
  button : Int
  action : Int
  round : ℕ
  minRaise : Int
  board : List Card
  playerSeats : List ℕ
  playersJ : ℕ → PlayerStJSON
  contribJ : ℕ → Int
  potChipsJ : Int
  sidePotsJ : List ((ℕ → Int) × Int)
  startedHand : Bool
  smallBetSeat : Int
  bigBetSeat : Int
  utgSeat : Int

/-- `Table.MarshalJSON`: note the `minRaise` slot is filled with the
accessor `t.MinRaise()` — the current player's minimum raise amount (or
`-1`) — not with the raw `minRaise` field. -/
def marshalTable (t : TableSt) : TableJSONM :=
  { gameTag := t.gameTag, limit := t.limit, stakes := t.stakes,
    numOfSeats := t.numOfSeats, deck := t.deck, button := t.button,
    action := t.action, round := t.round,
    minRaise := MinRaise t,
    board := t.board, playerSeats := t.seats,
    playersJ := fun s => playerStateJSON (t.players s),
    contribJ := t.contrib,
    potChipsJ := tablePotChips t,
    sidePotsJ := t.sidePots.map (fun ct => (ct, ((List.range t.numOfSeats).map ct).sum)),
    startedHand := t.startedHand, smallBetSeat := t.smallBetSeat,
    bigBetSeat := t.bigBetSeat, utgSeat := t.utgSeat }

/-- `Table.UnmarshalJSON`: the `minRaise` slot is restored into the raw
`minRaise` field; the dealer is rebuilt (`fl` stands for the fixed-limit
callback of the variant's rules, not part of the snapshot) and the
unserialized `showdown` flag keeps its zero value. -/
def unmarshalTable (fl : ℕ → Int) (j : TableJSONM) : TableSt :=
  { gameTag := j.gameTag, limit := j.limit, stakes := j.stakes,
    numOfSeats := j.numOfSeats, fixedLimit := fl, deck := j.deck,
    button := j.button, smallBetSeat := j.smallBetSeat,
    bigBetSeat := j.bigBetSeat, utgSeat := j.utgSeat, action := j.action,
    round := j.round,
    minRaise := j.minRaise,
    board := j.board, seats := j.playerSeats,
    players := fun s => playerOfJSON (j.playersJ s),
    contrib := j.contribJ,
    sidePots := j.sidePotsJ.map Prod.fst,
    startedHand := j.startedHand, showdown := false }

/-! ### Concrete table states used by the witnesses and counterexamples -/

/-- A flop state: seat 2 bet 10 (`minRaise = 10`), seat 1 called; both have
acted and lost `canRaise`; action is on seat 0 holding 12 chips, so seat 0
can only raise all-in for 12 — a short all-in (increment 2 < 10). -/
def tblShort : TableSt :=
  { gameTag := 0
    limit := LimitKind.noLimit
    stakes := { smallBet := 1, bigBet := 2, ante := 0, straddle := false }
    numOfSeats := 4
    fixedLimit := fun _ => 1
    deck := []
    button := 3
    smallBetSeat := 0
    bigBetSeat := 1
    utgSeat := 2
    action := 0
    round := 1
    minRaise := 10
    board := []
    seats := [0, 1, 2]
    players := fun s =>
      if s = 0 then
        { pid := 1, holeCards := [], chips := 12, beginChips := 12, acted := false,
          out := false, allin := false, canRaise := true, roundPot := 0, potTotal := 0,
          stand := false, straddle := false }
      else if s = 1 then
        { pid := 2, holeCards := [], chips := 30, beginChips := 40, acted := true,
          out := false, allin := false, canRaise := false, roundPot := 10, potTotal := 10,
          stand := false, straddle := false }
      else
        { pid := 3, holeCards := [], chips := 5, beginChips := 15, acted := true,
          out := false, allin := false, canRaise := false, roundPot := 10, potTotal := 10,
          stand := false, straddle := false }
    contrib := fun s => if s = 1 then 10 else if s = 2 then 10 else 0
    sidePots := []
    startedHand := true
    showdown := false }

/-- `tblShort` with nobody to act (action seat −1, as between rounds). -/
def tblIdle : TableSt := { tblShort with action := -1 }

/-- `tblShort` with the action on an all-in player. -/
def tblAllinTurn : TableSt :=
  { tblShort with
    action := 1,
    players := fun s =>
      if s = 1 then { tblShort.players 1 with allin := true } else tblShort.players s }

/-- A preflop state right after the blinds: seat 1 posted the big blind 2,
action is on seat 0, no raise yet (`minRaise = 0`), stakes 1/2. -/
def tblJson : TableSt :=
  { gameTag := 0
    limit := LimitKind.noLimit
    stakes := { smallBet := 1, bigBet := 2, ante := 0, straddle := false }
    numOfSeats := 6
    fixedLimit := fun _ => 0
    deck := []
    button := 1
    smallBetSeat := 0
    bigBetSeat := 1
    utgSeat := 0
    action := 0
    round := 0
    minRaise := 0
    board := []
    seats := [0, 1]
    players := fun s =>
      if s = 0 then
        { pid := 1, holeCards := [], chips := 100, beginChips := 100, acted := false,
          out := false, allin := false, canRaise := true, roundPot := 0, potTotal := 0,
          stand := false, straddle := false }
      else
        { pid := 2, holeCards := [], chips := 98, beginChips := 100, acted := false,
          out := false, allin := false, canRaise := true, roundPot := 2, potTotal := 2,
          stand := false, straddle := false }
    contrib := fun s => if s = 1 then 2 else 0
    sidePots := []
    startedHand := true
    showdown := false }

/-- Contributions of spec scenario S3: `{0:5, 1:20, 2:50}` over 9 seats. -/
def contribS3 : ℕ → ℕ := fun s => if s = 0 then 5 else if s = 1 then 20 else if s = 2 then 50 else 0

/-- Beginning stacks of spec scenario S3: `{0:5, 1:20, 2:100}`. -/
def beginS3 : ℕ → ℕ := fun s => if s = 0 then 5 else if s = 1 then 20 else if s = 2 then 100 else 0

/-- Contributions of spec scenario S4: `{0:1, 1:1, 2:1, 6:53, 8:53}`. -/
def contribS4 : ℕ → ℕ := fun s =>
  if s = 0 then 1 else if s = 1 then 1 else if s = 2 then 1
  else if s = 6 then 53 else if s = 8 then 53 else 0

/-- Spec-level all-in flags of a bucket list: flag `j` is true when some
seat has a positive contribution in bucket `j` whose cumulative contribution
through buckets `0..j` (`pre` carries the sum of the previous buckets)
equals its beginning stack.  Stated directly over bucket prefix sums,
independently of the merging of `Pot.SidePots`. -/
def flagsList (seats : List ℕ) (beginChips : ℕ → ℕ) : List (ℕ → ℕ) → (ℕ → ℕ) → List Bool
  | [], _ => []
  | b :: rest, pre =>
    decide (∃ s ∈ seats, 0 < b s ∧ b s + pre s = beginChips s) ::
      flagsList seats beginChips rest (fun s => pre s + b s)

/-! ## Theorems -/

lemma utf8Len_of_rankValid {c : Char} (h : rankValid c = true) : utf8Len c = 1 := by
  have hc : c ∈ rankChars := by simpa [rankValid] using h
  simp only [rankChars, List.mem_cons, List.mem_singleton] at hc
  rcases hc with rfl | rfl | rfl | rfl | rfl | rfl | rfl | rfl | rfl | rfl | rfl | rfl |
    rfl | h0
  all_goals first | rfl | exact absurd h0 (by simp)

lemma utf8Len_of_suitValid {c : Char} (h : suitValid c = true) : utf8Len c = 3 := by
  have hc : c ∈ suitChars := by simpa [suitValid] using h
  simp only [suitChars, List.mem_cons, List.mem_singleton] at hc
  rcases hc with rfl | rfl | rfl | rfl | h0
  all_goals first | rfl | exact absurd h0 (by simp)

/-- **C9.** `Card.UnmarshalText` succeeds exactly on the two-character
strings `<rank><suit>` with a valid rank and a valid suit, and on
success stores exactly those two characters in the card; consequently it
inverts `Card.MarshalText` on every card whose rank and suit are valid
(all 52 cards).  Every other input fails. -/
theorem card_unmarshal_text_spec :
    (∀ (cs : List Char) (c : Card), cardUnmarshalText cs = some c ↔
      (rankValid c.rank = true ∧ suitValid c.suit = true ∧ cs = [c.rank, c.suit])) ∧
    (∀ c : Card, rankValid c.rank = true → suitValid c.suit = true →
      cardUnmarshalText (cardMarshalText c) = some c) := by
  have main : ∀ (cs : List Char) (c : Card), cardUnmarshalText cs = some c ↔
      (rankValid c.rank = true ∧ suitValid c.suit = true ∧ cs = [c.rank, c.suit]) := by
    intro cs c
    constructor
    · intro h
      match cs with
      | [] => simp [cardUnmarshalText, unmarshalLoop] at h
      | [c0] =>
        by_cases h0 : rankValid c0 = true
        · simp [cardUnmarshalText, unmarshalLoop, h0] at h
        · simp [cardUnmarshalText, unmarshalLoop, h0] at h
      | c0 :: c1 :: rest =>
        by_cases h0 : rankValid c0 = true
        · have e0 : utf8Len c0 = 1 := utf8Len_of_rankValid h0
          by_cases h1 : suitValid c1 = true
          · have e1 : utf8Len c1 = 3 := utf8Len_of_suitValid h1
            match rest with
            | [] =>
              simp [cardUnmarshalText, unmarshalLoop, h0, h1, e0, e1] at h
              subst h
              exact ⟨h0, h1, rfl⟩
            | c2 :: rest2 =>
              simp [cardUnmarshalText, unmarshalLoop, h0, h1, e0, e1] at h
          · simp [cardUnmarshalText, unmarshalLoop, h0, h1, e0] at h
        · simp [cardUnmarshalText, unmarshalLoop, h0] at h
    · rintro ⟨h0, h1, rfl⟩
      simp [cardUnmarshalText, unmarshalLoop, h0, h1,
        utf8Len_of_rankValid h0, utf8Len_of_suitValid h1]
  exact ⟨main, fun c h0 h1 => (main (cardMarshalText c) c).2 ⟨h0, h1, rfl⟩⟩

/-- Witness for C9: the theorem applied to the ten of spades. -/
theorem card_unmarshal_text_spec_witness :
    cardUnmarshalText (cardMarshalText ⟨'T', '♠'⟩) = some ⟨'T', '♠'⟩ :=
  card_unmarshal_text_spec.2 ⟨'T', '♠'⟩ (by decide) (by decide)


lemma mem_collectLevels (contrib : ℕ → ℕ) :
    ∀ (l acc : List ℕ) (a : ℕ),
      a ∈ collectLevels contrib l acc ↔ a ∈ acc ∨ (a ≠ 0 ∧ ∃ s ∈ l, contrib s = a) := by
  intro l
  induction l with
  | nil => intro acc a; simp [collectLevels]
  | cons t rest ih =>
    intro acc a
    simp only [collectLevels]
    split_ifs with h0 h1
    · rw [ih]
      constructor
      · rintro (h | ⟨hne, u, hu, he⟩)
        exacts [Or.inl h, Or.inr ⟨hne, u, List.mem_cons_of_mem _ hu, he⟩]
      · rintro (h | ⟨hne, u, hu, he⟩)
        · exact Or.inl h
        · rcases List.mem_cons.1 hu with rfl | hu2
          · exact absurd (he.symm.trans h0) hne
          · exact Or.inr ⟨hne, u, hu2, he⟩
    · rw [ih]
      constructor
      · rintro (h | ⟨hne, u, hu, he⟩)
        exacts [Or.inl h, Or.inr ⟨hne, u, List.mem_cons_of_mem _ hu, he⟩]
      · rintro (h | ⟨hne, u, hu, he⟩)
        · exact Or.inl h
        · rcases List.mem_cons.1 hu with rfl | hu2
          · exact Or.inl (he ▸ h1)
          · exact Or.inr ⟨hne, u, hu2, he⟩
    · rw [ih]
      constructor
      · rintro (h | ⟨hne, u, hu, he⟩)
        · rcases List.mem_append.1 h with h | h
          · exact Or.inl h
          · have ha : a = contrib t := by simpa using h
            exact Or.inr ⟨ha.symm ▸ h0, t, List.mem_cons_self _ _, ha.symm⟩
        · exact Or.inr ⟨hne, u, List.mem_cons_of_mem _ hu, he⟩
      · rintro (h | ⟨hne, u, hu, he⟩)
        · exact Or.inl (List.mem_append.2 (Or.inl h))
        · rcases List.mem_cons.1 hu with rfl | hu2
          · exact Or.inl (List.mem_append.2 (Or.inr (by simp [he.symm])))
          · exact Or.inr ⟨hne, u, hu2, he⟩

lemma nodup_collectLevels (contrib : ℕ → ℕ) :
    ∀ (l acc : List ℕ), acc.Nodup → (collectLevels contrib l acc).Nodup := by
  intro l
  induction l with
  | nil => intro acc h; simpa [collectLevels] using h
  | cons t rest ih =>
    intro acc h
    simp only [collectLevels]
    by_cases h0 : contrib t = 0
    · rw [if_pos h0]; exact ih acc h
    · by_cases h1 : contrib t ∈ acc
      · rw [if_neg h0, if_pos h1]; exact ih acc h
      · rw [if_neg h0, if_neg h1]
        exact ih _ (by simp [List.nodup_append, h, h1])

lemma sidePotAmounts_sorted_lt (seats : List ℕ) (contrib : ℕ → ℕ) :
    (sidePotAmounts seats contrib).Sorted (· < ·) := by
  have hnd : (sidePotAmounts seats contrib).Nodup :=
    ((List.perm_insertionSort _ _).nodup_iff).2
      (nodup_collectLevels contrib seats [] List.nodup_nil)
  exact (List.sorted_insertionSort _ _).lt_of_le hnd

lemma mem_sidePotAmounts (seats : List ℕ) (contrib : ℕ → ℕ) (a : ℕ) :
    a ∈ sidePotAmounts seats contrib ↔ a ≠ 0 ∧ ∃ s ∈ seats, contrib s = a := by
  rw [sidePotAmounts, (List.perm_insertionSort _ _).mem_iff, mem_collectLevels]
  simp

lemma bucketsAux_sum_at (seats : List ℕ) (contrib : ℕ → ℕ) {s : ℕ} (hs : s ∈ seats) :
    ∀ (L : List ℕ) (last : ℕ), List.Pairwise (· < ·) (last :: L) →
      (contrib s ≤ last ∨ contrib s ∈ L) →
      ((bucketsAux seats contrib L last).map (fun p => p s)).sum = contrib s - last := by
  intro L
  induction L with
  | nil =>
    intro last _ hc
    rcases hc with hc | hc
    · simp [bucketsAux]; omega
    · exact absurd hc (List.not_mem_nil _)
  | cons a rest ih =>
    intro last hp hc
    have hla : last < a := (List.pairwise_cons.1 hp).1 a (List.mem_cons_self _ _)
    have hp2 : List.Pairwise (· < ·) (a :: rest) := (List.pairwise_cons.1 hp).2
    simp only [bucketsAux, List.map_cons, List.sum_cons]
    rcases hc with hc | hc
    · have hb : bucketFn seats contrib last a s = 0 := by
        simp only [bucketFn]
        rw [if_neg, if_neg] <;> rintro ⟨_, h2, _⟩ <;> omega
      rw [hb, ih a hp2 (Or.inl (by omega))]
      omega
    · rcases List.mem_cons.1 hc with heq | hc
      · have hb : bucketFn seats contrib last a s = a - last := by
          simp only [bucketFn]
          rw [if_pos ⟨hs, by omega, by omega⟩]
        rw [hb, ih a hp2 (Or.inl (by omega))]
        omega
      · have hac : a < contrib s := List.rel_of_pairwise_cons hp2 hc
        have hb : bucketFn seats contrib last a s = a - last := by
          simp only [bucketFn]
          rw [if_pos ⟨hs, by omega, by omega⟩]
        rw [hb, ih a hp2 (Or.inr hc)]
        omega

lemma updateLast_ne_nil (b : ℕ → ℕ) :
    ∀ (acc : List (ℕ → ℕ)), acc ≠ [] → updateLast acc b ≠ [] := by
  intro acc
  cases acc with
  | nil => intro h; exact absurd rfl h
  | cons x xs =>
    intro _
    cases xs with
    | nil => simp [updateLast]
    | cons y ys => simp [updateLast]

lemma updateLast_sum_at (b : ℕ → ℕ) (s : ℕ) :
    ∀ (acc : List (ℕ → ℕ)), acc ≠ [] →
      ((updateLast acc b).map (fun p => p s)).sum = (acc.map (fun p => p s)).sum + b s := by
  intro acc
  induction acc with
  | nil => intro h; exact absurd rfl h
  | cons x xs ih =>
    intro _
    cases xs with
    | nil => simp [updateLast]
    | cons y ys =>
      simp only [updateLast, List.map_cons, List.sum_cons]
      rw [ih (by simp)]
      simp only [List.map_cons, List.sum_cons]
      ring

lemma mergeAux_sum_at (seats : List ℕ) (bc : ℕ → ℕ) (s : ℕ) :
    ∀ (L : List (ℕ → ℕ)) (i : ℕ) (flag : Bool) (acc : List (ℕ → ℕ)),
      (i = 0 ∨ acc ≠ []) →
      ((mergeAux seats bc L i flag acc).map (fun p => p s)).sum
        = (acc.map (fun p => p s)).sum + (L.map (fun p => p s)).sum := by
  intro L
  induction L with
  | nil => intro i flag acc _; simp [mergeAux]
  | cons b rest ih =>
    intro i flag acc hinv
    simp only [mergeAux]
    split_ifs with hcond
    · rw [ih (i + 1) _ (acc ++ [b]) (Or.inr (by simp))]
      simp only [List.map_append, List.sum_append, List.map_cons, List.sum_cons,
        List.map_nil, List.sum_nil]
      ring
    · have hi : i ≠ 0 := fun h => hcond (Or.inr (Or.inr h))
      have hacc : acc ≠ [] := hinv.resolve_left hi
      rw [ih (i + 1) _ _ (Or.inr (updateLast_ne_nil b acc hacc)),
        updateLast_sum_at b s acc hacc]
      simp only [List.map_cons, List.sum_cons]
      ring

lemma map_sum_swap (seats : List ℕ) :
    ∀ (L : List (ℕ → ℕ)),
      (L.map (fun p => (seats.map p).sum)).sum
        = (seats.map (fun s => (L.map (fun p => p s)).sum)).sum := by
  intro L
  induction L with
  | nil => simp
  | cons p ps ih =>
    simp only [List.map_cons, List.sum_cons, ih]
    rw [← List.sum_map_add]

/-- **C5.** `Pot.SidePots` is a decomposition of the pot: for every seat
in the pot the side-pot contributions of that seat sum to the seat's total
contribution, and the side pots' chip totals sum to `Pot.Chips()`. -/
theorem sidePots_sum_decomposition (seats : List ℕ) (contrib beginChips : ℕ → ℕ) :
    (∀ s ∈ seats, ((SidePots seats contrib beginChips).map (fun p => p s)).sum = contrib s) ∧
    ((SidePots seats contrib beginChips).map (fun p => potChips seats p)).sum
      = potChips seats contrib := by
  have hseat : ∀ s ∈ seats,
      ((SidePots seats contrib beginChips).map (fun p => p s)).sum = contrib s := by
    intro s hs
    rw [SidePots, mergeAux_sum_at seats beginChips s _ 0 false [] (Or.inl rfl)]
    have hpw : List.Pairwise (· < ·) (0 :: sidePotAmounts seats contrib) := by
      rw [List.pairwise_cons]
      refine ⟨fun a ha => ?_, sidePotAmounts_sorted_lt seats contrib⟩
      have := (mem_sidePotAmounts seats contrib a).1 ha
      omega
    have hmem : contrib s ≤ 0 ∨ contrib s ∈ sidePotAmounts seats contrib := by
      by_cases h0 : contrib s = 0
      · exact Or.inl (by omega)
      · exact Or.inr ((mem_sidePotAmounts seats contrib (contrib s)).2 ⟨h0, s, hs, rfl⟩)
    rw [bucketsAux_sum_at seats contrib hs (sidePotAmounts seats contrib) 0 hpw hmem]
    simp
  refine ⟨hseat, ?_⟩
  show ((SidePots seats contrib beginChips).map
      (fun p => potChips seats p)).sum = potChips seats contrib
  simp only [potChips]
  rw [map_sum_swap]
  exact congrArg List.sum (List.map_congr_left hseat)

/-- Witness for C5: the decomposition applied to the S3 scenario at seat 1. -/
theorem sidePots_sum_decomposition_witness :
    ((SidePots (List.range 9) contribS3 beginS3).map (fun p => p 1)).sum = contribS3 1 ∧
    ((SidePots (List.range 9) contribS3 beginS3).map
        (fun p => potChips (List.range 9) p)).sum = potChips (List.range 9) contribS3 :=
  ⟨(sidePots_sum_decomposition (List.range 9) contribS3 beginS3).1 1 (by decide),
    (sidePots_sum_decomposition (List.range 9) contribS3 beginS3).2⟩

lemma updateLast_length (b : ℕ → ℕ) :
    ∀ (acc : List (ℕ → ℕ)), acc ≠ [] → (updateLast acc b).length = acc.length := by
  intro acc
  induction acc with
  | nil => intro h; exact absurd rfl h
  | cons x xs ih =>
    intro _
    cases xs with
    | nil => simp [updateLast]
    | cons y ys =>
      simp only [updateLast, List.length_cons]
      rw [ih (by simp)]
      simp [List.length_cons]

lemma mergeAux_length (seats : List ℕ) (bc : ℕ → ℕ) :
    ∀ (L : List (ℕ → ℕ)) (i : ℕ) (flag : Bool) (acc : List (ℕ → ℕ)),
      i ≠ 0 → acc ≠ [] →
      (mergeAux seats bc L i flag acc).length
        = acc.length +
          ((flag :: flagsList seats bc L (fun s => (acc.map (fun p => p s)).sum)).take
            L.length).count true := by
  intro L
  induction L with
  | nil => intro i flag acc _ _; simp [mergeAux]
  | cons b rest ih =>
    intro i flag acc hi hacc
    simp only [mergeAux]
    split_ifs with hcond
    · have hflag : flag = true := by
        rcases hcond with h | h | h
        exacts [h, h.1, absurd h hi]
      subst hflag
      rw [ih (i + 1) _ (acc ++ [b]) (by omega) (by simp)]
      have hfe : (fun s => (((acc ++ [b]).map (fun p => p s)).sum : ℕ))
          = fun s => (acc.map (fun p => p s)).sum + b s := by
        funext s; simp [List.map_append]
      rw [hfe]
      simp only [flagsList, hasAllin, List.length_cons, List.length_append,
        List.length_singleton, List.length_nil, List.take_succ_cons, List.count_cons,
        beq_self_eq_true, eq_self_iff_true, if_true]
      ring
    · have hflag : flag = false := by
        rcases Bool.eq_false_or_eq_true flag with h | h
        · exact absurd (Or.inl h) hcond
        · exact h
      subst hflag
      rw [ih (i + 1) _ (updateLast acc b) (by omega) (updateLast_ne_nil b acc hacc),
        updateLast_length b acc hacc]
      have hfe : (fun s => (((updateLast acc b).map (fun p => p s)).sum : ℕ))
          = fun s => (acc.map (fun p => p s)).sum + b s := by
        funext s; rw [updateLast_sum_at b s acc hacc]
      rw [hfe]
      simp only [flagsList, hasAllin, List.length_cons, List.take_succ_cons,
        List.count_cons]
      simp

/-- **C4.** `Pot.SidePots` buckets the contributions at the distinct nonzero
levels and keeps a bucket as a separate side pot exactly when it is the
first bucket or the previous bucket contained a player whose cumulative
contribution equals its beginning stack: the number of side pots is one
plus the number of true flags among the first `k - 1` bucket all-in flags
(`flagsList`, stated over bucket prefix sums).  In particular scenario S3
(`{0:5,1:20,2:50}` against stacks `{0:5,1:20,2:100}`) yields exactly the
three pots `[{0:5,1:5,2:5}, {1:15,2:15}, {2:30}]`, and scenario S4
(`{0:1,1:1,2:1,6:53,8:53}` against stacks of 100) yields a single pot of
109 chips. -/
theorem sidePots_bucket_merge_rule :
    ((SidePots (List.range 9) contribS3 beginS3).map fun p => (List.range 9).map p) =
      [[5, 5, 5, 0, 0, 0, 0, 0, 0], [0, 15, 15, 0, 0, 0, 0, 0, 0],
        [0, 0, 30, 0, 0, 0, 0, 0, 0]] ∧
    ((SidePots (List.range 9) contribS4 (fun _ => 100)).map fun p => (List.range 9).map p) =
      [[1, 1, 1, 0, 0, 0, 53, 0, 53]] ∧
    ((SidePots (List.range 9) contribS4 (fun _ => 100)).map
      fun p => potChips (List.range 9) p) = [109] ∧
    (∀ (seats : List ℕ) (contrib bc : ℕ → ℕ),
      bucketsAux seats contrib (sidePotAmounts seats contrib) 0 ≠ [] →
      (SidePots seats contrib bc).length
        = 1 + ((flagsList seats bc (bucketsAux seats contrib (sidePotAmounts seats contrib) 0)
            (fun _ => 0)).take
            ((bucketsAux seats contrib (sidePotAmounts seats contrib) 0).length - 1)).count
            true) := by
  refine ⟨by decide, by decide, by decide, ?_⟩
  intro seats contrib bc hne
  rw [SidePots]
  rcases hB : bucketsAux seats contrib (sidePotAmounts seats contrib) 0 with _ | ⟨b, rest⟩
  · exact absurd hB hne
  simp only [mergeAux]
  rw [if_pos (Or.inr (Or.inr trivial))]
  show (mergeAux seats bc rest 1 (decide (hasAllin seats bc [] b)) [b]).length = _
  rw [mergeAux_length seats bc rest 1 _ [b] (by omega) (by simp)]
  have hfe : (fun s => ((([b] : List (ℕ → ℕ)).map (fun p => p s)).sum : ℕ))
      = fun s => (0 : ℕ) + b s := by
    funext s; simp
  rw [hfe]
  simp only [flagsList, hasAllin, List.length_cons, List.length_singleton,
    List.map_nil, List.sum_nil, Nat.add_zero, Nat.add_sub_cancel, List.take_succ_cons,
    Nat.zero_add]
  simp

/-- Witness for C4: the side-pot count rule applied to the S3 scenario. -/
theorem sidePots_bucket_merge_rule_witness :
    (SidePots (List.range 9) contribS3 beginS3).length
      = 1 + ((flagsList (List.range 9) beginS3
          (bucketsAux (List.range 9) contribS3
            (sidePotAmounts (List.range 9) contribS3) 0) (fun _ => 0)).take
          ((bucketsAux (List.range 9) contribS3
            (sidePotAmounts (List.range 9) contribS3) 0).length - 1)).count true :=
  sidePots_bucket_merge_rule.2.2.2 (List.range 9) contribS3 beginS3
    (List.ne_nil_of_length_pos (by decide))

/-- **C1.** The high/low split of `Pot.payout` conditions the extra chip on
the parity of `Chips()/2` instead of the parity of `Chips()`.  At pot 15
(the spec's S5) the sole high winner does get 8 and the sole low winner 7;
but at pot 13 the code pays 6 + 6 = 12 (one chip vanishes) and at pot 14 it
pays 8 + 7 = 15 (one chip is minted), so the high and low halves do not sum
to the pot's total chips. -/
theorem payout_split_half_parity_bug :
    ((payoutSplitResults [1] [2] 15 0).1 1 = 8 ∧ (payoutSplitResults [1] [2] 15 0).2 2 = 7) ∧
    ((payoutSplitResults [1] [2] 13 0).1 1 = 6 ∧ (payoutSplitResults [1] [2] 13 0).2 2 = 6 ∧
      6 + 6 ≠ 13) ∧
    ((payoutSplitResults [1] [2] 14 0).1 1 = 8 ∧ (payoutSplitResults [1] [2] 14 0).2 2 = 7 ∧
      8 + 7 ≠ 14) := by
  decide

lemma hitList_add : ∀ (f g c : ℕ), hitList (f + g) c = hitList f c ++ hitList g (hitFrom f c) := by
  intro f
  induction f with
  | zero => intro g c; simp [hitList, hitFrom]
  | succ f ih =>
    intro g c
    show hitList (f + 1 + g) c = _
    have he : f + 1 + g = (f + g) + 1 := by omega
    rw [he]
    show c :: hitList (f + g) ((c + 1) % 10) = _
    rw [ih g ((c + 1) % 10)]
    rfl

lemma distLoop_spec (winners : List ℕ) (s : ℕ) :
    ∀ (fuel : ℕ), ∀ (c rem : ℕ) (extra : ℕ → ℕ),
      rem ≤ ((hitList fuel c).filter (fun x => decide (x ∈ winners))).length →
      (distLoop winners fuel c rem extra).1 s
          = extra s
            + (((hitList fuel c).filter (fun x => decide (x ∈ winners))).take rem).count s
        ∧ (distLoop winners fuel c rem extra).2 = 0 := by
  intro fuel
  induction fuel with
  | zero =>
    intro c rem extra hrem
    simp only [hitList, List.filter_nil, List.length_nil, Nat.le_zero] at hrem
    subst hrem
    simp [distLoop, hitList]
  | succ fuel ih =>
    intro c rem extra hrem
    by_cases h0 : rem = 0
    · subst h0; simp [distLoop]
    · obtain ⟨r, rfl⟩ : ∃ r, rem = r + 1 := ⟨rem - 1, by omega⟩
      simp only [distLoop]
      rw [if_neg h0]
      by_cases hc : c ∈ winners
      · rw [if_pos hc]
        have hfil : (hitList (fuel + 1) c).filter (fun x => decide (x ∈ winners))
            = c :: (hitList fuel ((c + 1) % 10)).filter (fun x => decide (x ∈ winners)) := by
          simp [hitList, List.filter_cons, hc]
        rw [hfil] at hrem ⊢
        have hrem2 : r ≤
            ((hitList fuel ((c + 1) % 10)).filter (fun x => decide (x ∈ winners))).length := by
          simp only [List.length_cons] at hrem
          omega
        obtain ⟨h1, h2⟩ := ih ((c + 1) % 10) r
          (fun u => if u = c then extra u + 1 else extra u) hrem2
        refine ⟨?_, by simpa using h2⟩
        have hstep :
            (distLoop winners fuel ((c + 1) % 10) (r + 1 - 1)
              fun u => if u = c then extra u + 1 else extra u)
            = distLoop winners fuel ((c + 1) % 10) r
              fun u => if u = c then extra u + 1 else extra u := by norm_num
        rw [hstep, h1, List.take_succ_cons, List.count_cons]
        by_cases hsc : s = c
        · simp [hsc]
          omega
        · have hcs : ¬c = s := fun h => hsc h.symm
          simp [hsc, hcs]
      · rw [if_neg hc]
        have hfil : (hitList (fuel + 1) c).filter (fun x => decide (x ∈ winners))
            = (hitList fuel ((c + 1) % 10)).filter (fun x => decide (x ∈ winners)) := by
          simp [hitList, List.filter_cons, hc]
        rw [hfil] at hrem ⊢
        exact ih ((c + 1) % 10) (r + 1) extra hrem

lemma hitList_ten_perm (c : ℕ) (hc : c < 10) : (hitList 10 c).Perm (List.range 10) := by
  interval_cases c <;> decide

lemma filter_mem_length (winners : List ℕ) (hnd : winners.Nodup)
    (hlt : ∀ w ∈ winners, w < 10) (c : ℕ) (hc : c < 10) :
    ((hitList 10 c).filter (fun x => decide (x ∈ winners))).length = winners.length := by
  have h1 : ((hitList 10 c).filter (fun x => decide (x ∈ winners))).Perm
      ((List.range 10).filter (fun x => decide (x ∈ winners))) :=
    (hitList_ten_perm c hc).filter _
  have h2 : ((List.range 10).filter (fun x => decide (x ∈ winners))).Perm winners := by
    rw [List.perm_ext_iff_of_nodup (List.Nodup.filter _ (List.nodup_range 10)) hnd]
    intro a
    simp only [List.mem_filter, List.mem_range, decide_eq_true_eq]
    exact ⟨fun h => h.2, fun h => ⟨hlt a h, h⟩⟩
  exact (h1.trans h2).length_eq

/-- **C2 (amended).** `Pot.resultsFromWinners` pays each of the `n` tied
winners `chips / n`, and distributes the remainder `r = chips % n` one chip
each to the first `r` winning seats in the cyclic seat scan that starts *at*
the button seat itself (`seatToCheck := button % 10`, button included, not
strictly after the button), stepping modulo 10.  The remainder loop finishes
within the ten modelled iterations, and any larger fuel computes the same
extra-chip map, so the fuel-10 model agrees with Go's unbounded loop.  In
the spec's S6 instance (pot 33, winners 1 and 3, button 2) each winner gets
16 and the extra chip goes to seat 3. -/
theorem results_from_winners_remainder_rule
    (winners : List ℕ) (chips button : ℕ)
    (hne : winners ≠ []) (hnd : winners.Nodup) (hlt : ∀ w ∈ winners, w < 10)
    (hdiv : chips % winners.length ≠ 0) :
    (∀ s, resultsFromWinners winners chips button s
        = (if s ∈ winners then chips / winners.length else 0)
          + (if s ∈ (((hitList 10 (button % 10)).filter
              (fun x => decide (x ∈ winners))).take (chips % winners.length))
            then 1 else 0)) ∧
    (distLoop winners 10 (button % 10) (chips % winners.length) (fun _ => 0)).2 = 0 ∧
    (∀ fuel, 10 ≤ fuel → ∀ s,
      (distLoop winners fuel (button % 10) (chips % winners.length) (fun _ => 0)).1 s
        = (distLoop winners 10 (button % 10) (chips % winners.length) (fun _ => 0)).1 s) ∧
    (resultsFromWinners [1, 3] 33 2 1 = 16 ∧ resultsFromWinners [1, 3] 33 2 3 = 17) := by
  have hn : 0 < winners.length := List.length_pos.2 hne
  have hremlt : chips % winners.length < winners.length := Nat.mod_lt _ hn
  have hc10 : button % 10 < 10 := Nat.mod_lt _ (by omega)
  have hlen : ((hitList 10 (button % 10)).filter
      (fun x => decide (x ∈ winners))).length = winners.length :=
    filter_mem_length winners hnd hlt (button % 10) hc10
  have hle : chips % winners.length ≤ ((hitList 10 (button % 10)).filter
      (fun x => decide (x ∈ winners))).length := by omega
  have hnodup : ((hitList 10 (button % 10)).filter
      (fun x => decide (x ∈ winners))).Nodup :=
    List.Nodup.filter _
      (((hitList_ten_perm (button % 10) hc10).nodup_iff).2 (List.nodup_range 10))
  refine ⟨?_, ?_, ?_, by decide, by decide⟩
  · intro s
    obtain ⟨h1, _⟩ := distLoop_spec winners s 10 (button % 10)
      (chips % winners.length) (fun _ => 0) hle
    rw [resultsFromWinners, h1]
    have hnd2 : (((hitList 10 (button % 10)).filter
        (fun x => decide (x ∈ winners))).take (chips % winners.length)).Nodup :=
      List.Nodup.sublist (List.take_sublist _ _) hnodup
    by_cases hmem : s ∈ ((hitList 10 (button % 10)).filter
        (fun x => decide (x ∈ winners))).take (chips % winners.length)
    · rw [List.count_eq_one_of_mem hnd2 hmem, if_pos hmem]
    · rw [List.count_eq_zero_of_not_mem hmem, if_neg hmem]
  · exact (distLoop_spec winners 0 10 (button % 10)
      (chips % winners.length) (fun _ => 0) hle).2
  · intro fuel hfuel s
    obtain ⟨k, rfl⟩ : ∃ k, fuel = 10 + k := ⟨fuel - 10, by omega⟩
    have hsplit : hitList (10 + k) (button % 10)
        = hitList 10 (button % 10) ++ hitList k (hitFrom 10 (button % 10)) :=
      hitList_add 10 k (button % 10)
    have hle2 : chips % winners.length ≤ ((hitList (10 + k) (button % 10)).filter
        (fun x => decide (x ∈ winners))).length := by
      rw [hsplit, List.filter_append, List.length_append]
      omega
    obtain ⟨hA, _⟩ := distLoop_spec winners s (10 + k) (button % 10)
      (chips % winners.length) (fun _ => 0) hle2
    obtain ⟨hB, _⟩ := distLoop_spec winners s 10 (button % 10)
      (chips % winners.length) (fun _ => 0) hle
    rw [hA, hB, hsplit, List.filter_append,
      List.take_append_of_le_length (by omega)]

/-- Witness for C2: the remainder rule applied to the S6 winners
`[2, 3]`, pot 33, button 2, at seat 2 (the button itself receives the
extra chip there). -/
theorem results_from_winners_remainder_rule_witness :
    (resultsFromWinners [2, 3] 33 2 2
        = (if 2 ∈ [2, 3] then 33 / [2, 3].length else 0)
          + (if 2 ∈ (((hitList 10 (2 % 10)).filter
              (fun x => decide (x ∈ [2, 3]))).take (33 % [2, 3].length))
            then 1 else 0)) ∧
    resultsFromWinners [2, 3] 33 2 2 = 17 :=
  ⟨(results_from_winners_remainder_rule [2, 3] 33 2 (by decide) (by decide)
      (by decide) (by decide)).1 2, by decide⟩

/-- Counterexample for C2: with pot 33, tied winners at seats 2 and 3, and
the button at seat 2, the extra chip goes to seat 2 — the button seat
itself — because the loop starts at `button % 10`, not strictly after the
button.  The claim, as stated, requires the extra chip at seat 3, the first
winning seat strictly after the button. -/
theorem results_from_winners_button_counterexample :
    (resultsFromWinners [2, 3] 33 2) 2 = 17 ∧ (resultsFromWinners [2, 3] 33 2) 3 = 16 := by
  decide

/-- **C10.** Without a player on the action seat, the accessors
`Outstanding()`, `MinRaise()` and `MaxRaise()` all return the sentinel −1;
and `Outstanding()` returns 0 when the current player is all-in or out. -/
theorem accessors_no_current_player (t : TableSt) :
    (CurrentPlayer t = none →
      Outstanding t = -1 ∧ MinRaise t = -1 ∧ MaxRaise t = -1) ∧
    (∀ p, CurrentPlayer t = some p → p.allin ∨ p.out → Outstanding t = 0) := by
  constructor
  · intro h
    have hseat : currentPlayerSeat t = none := by
      cases hc : currentPlayerSeat t with
      | none => rfl
      | some s => rw [CurrentPlayer, hc] at h; simp at h
    refine ⟨?_, ?_, ?_⟩ <;> simp [Outstanding, MinRaise, MaxRaise, hseat]
  · intro p h hao
    cases hc : currentPlayerSeat t with
    | none => rw [CurrentPlayer, hc] at h; simp at h
    | some s =>
      rw [CurrentPlayer, hc] at h
      simp at h
      simp only [Outstanding, hc]
      rw [if_pos (h.symm ▸ hao)]

/-- Witness for C10: the sentinels on an idle table (action −1) and the
zero outstanding for an all-in current player. -/
theorem accessors_no_current_player_witness :
    (Outstanding tblIdle = -1 ∧ MinRaise tblIdle = -1 ∧ MaxRaise tblIdle = -1) ∧
    Outstanding tblAllinTurn = 0 :=
  ⟨(accessors_no_current_player tblIdle).1 (by decide),
   (accessors_no_current_player tblAllinTurn).2 (tblAllinTurn.players 1) (by decide)
     (Or.inl (by decide))⟩

/-- **C7.** `Table.ValidActions` for the acting player: the empty set when
all-in or out; `{Fold, Check, Bet}` when nothing is outstanding;
`{Fold, Call}` when the player cannot raise or the stack is at most the
outstanding amount; `{Fold, Call, Raise}` otherwise. -/
theorem valid_actions_cases (t : TableSt) (p : PlayerSt)
    (hp : CurrentPlayer t = some p) :
    (p.allin ∨ p.out → ValidActions t = some []) ∧
    (¬(p.allin ∨ p.out) → Outstanding t = 0 →
      ValidActions t = some [Act.fold, Act.check, Act.bet]) ∧
    (¬(p.allin ∨ p.out) → Outstanding t ≠ 0 →
      (¬p.canRaise ∨ p.chips ≤ Outstanding t) →
      ValidActions t = some [Act.fold, Act.call]) ∧
    (¬(p.allin ∨ p.out) → Outstanding t ≠ 0 → p.canRaise → Outstanding t < p.chips →
      ValidActions t = some [Act.fold, Act.call, Act.raise]) := by
  obtain ⟨seat, hseat, hps⟩ :
      ∃ seat, currentPlayerSeat t = some seat ∧ t.players seat = p := by
    cases hc : currentPlayerSeat t with
    | none => rw [CurrentPlayer, hc] at hp; simp at hp
    | some s =>
      rw [CurrentPlayer, hc] at hp
      simp at hp
      exact ⟨s, rfl, hp⟩
  subst hps
  refine ⟨?_, ?_, ?_, ?_⟩
  · intro h
    simp only [ValidActions, hseat]
    rw [if_pos h]
  · intro h1 h2
    simp only [ValidActions, hseat]
    rw [if_neg h1, if_pos h2]
  · intro h1 h2 h3
    simp only [ValidActions, hseat]
    rw [if_neg h1, if_neg h2]
    rcases h3 with h3 | h3
    · rw [if_pos h3]
    · by_cases hcr : (t.players seat).canRaise
      · rw [if_neg (fun hh => hh hcr), if_pos h3]
      · rw [if_pos hcr]
  · intro h1 h2 h3 h4
    simp only [ValidActions, hseat]
    rw [if_neg h1, if_neg h2, if_neg (fun hh => hh h3), if_neg (not_le.2 h4)]

/-- Witness for C7: on `tblShort` the acting player faces 10 outstanding
with 12 chips and may raise, so the valid actions are Fold/Call/Raise. -/
theorem valid_actions_cases_witness :
    ValidActions tblShort = some [Act.fold, Act.call, Act.raise] :=
  (valid_actions_cases tblShort (tblShort.players 0) rfl).2.2.2
    (by decide) (by decide) (by decide) (by decide)

/-- **C8 (code bug).** The snapshot round trip is not the identity:
`Table.MarshalJSON` writes the *accessor* `t.MinRaise()` (the current
player's minimum raise, here 4 = 2·bigBet) into the `minRaise` slot, while
`Table.UnmarshalJSON` restores that slot into the raw `minRaise` field.
Re-serializing the restored table computes `MinRaise()` over the corrupted
field (outstanding 2 + 4 + 0 = 6), so the second JSON differs from the
first. -/
theorem table_json_roundtrip_bug :
    (marshalTable tblJson).minRaise = 4 ∧
    (marshalTable (unmarshalTable tblJson.fixedLimit (marshalTable tblJson))).minRaise = 6 ∧
    marshalTable (unmarshalTable tblJson.fixedLimit (marshalTable tblJson))
      ≠ marshalTable tblJson := by
  have h4 : (marshalTable tblJson).minRaise = 4 := by decide
  have h6 : (marshalTable (unmarshalTable tblJson.fixedLimit
      (marshalTable tblJson))).minRaise = 6 := by decide
  refine ⟨h4, h6, fun h => ?_⟩
  rw [h, h4] at h6
  exact absurd h6 (by decide)

/-- Counterexample for C3: on `tblShort`, seat 1 has already acted this
round; seat 0's raise to 12 is a short all-in (increment 2 below
`minRaise = 10`), yet after `handleAction` seat 1's `acted` flag is false —
`resetActed()` runs on *every* raise, short or full.  The claim, as stated,
requires `acted` to remain true. -/
theorem raise_clears_acted_counterexample :
    (tblShort.players 1).acted = true ∧
    12 - (tblShort.players 0).roundPot - Outstanding tblShort < tblShort.minRaise ∧
    (handleAction tblShort Act.raise 12).map (fun t2 => (t2.players 1).acted)
      = some false := by
  decide

lemma showdownCheck_minRaise (t : TableSt) : (showdownCheck t).minRaise = t.minRaise := by
  unfold showdownCheck; split_ifs <;> rfl

lemma showdownCheck_players (t : TableSt) : (showdownCheck t).players = t.players := by
  unfold showdownCheck; split_ifs <;> rfl

lemma actorFlags_players_ne (t : TableSt) (seat s : ℕ) (hne : s ≠ seat) :
    (actorFlags t seat).players s = t.players s := by
  simp [actorFlags, hne]

lemma commitRaise_short_minRaise (t : TableSt) (seat : ℕ) (chips : Int)
    (hshort : ¬(chips - (t.players seat).roundPot - Outstanding t ≥ t.minRaise)) :
    (commitRaise t seat chips).minRaise = t.minRaise := by
  simp only [commitRaise]
  rw [if_neg hshort]
  simp [resetActed, addToPot]

lemma commitRaise_short_players (t : TableSt) (seat : ℕ) (chips : Int)
    (hshort : ¬(chips - (t.players seat).roundPot - Outstanding t ≥ t.minRaise))
    (s : ℕ) (hs : s ∈ t.seats) (hne : s ≠ seat) :
    (commitRaise t seat chips).players s = { t.players s with acted := false } := by
  simp only [commitRaise]
  rw [if_neg hshort]
  simp [resetActed, addToPot, hne, hs]

/-- **C3 (amended).** A raise whose increment over the call amount is
strictly below `min_raise` (a short all-in) leaves `min_raise` unchanged
and leaves every other player's `canRaise` flag unchanged (the betting is
not reopened for raising); however *every* accepted raise — short or full —
resets `acted` to false on all other seated players, so they act again
(restricted to fold/call by their unchanged `canRaise`).  The no-reopen
rule is enforced through `canRaise` alone, not through `acted`. -/
theorem short_allin_raise_no_reopen
    (t t' : TableSt) (chips : Int) (seat : ℕ)
    (hseat : currentPlayerSeat t = some seat)
    (h : handleAction t Act.raise chips = some t')
    (hshort : chips - (t.players seat).roundPot - Outstanding t < t.minRaise) :
    t'.minRaise = t.minRaise ∧
    ∀ s ∈ t.seats, s ≠ seat →
      (t'.players s).canRaise = (t.players s).canRaise ∧
        (t'.players s).acted = false := by
  have hge : ¬(chips - (t.players seat).roundPot - Outstanding t ≥ t.minRaise) := by omega
  rcases hVA : ValidActions t with _ | acts
  · simp only [handleAction, hseat, hVA] at h
    exact Option.noConfusion h
  · simp only [handleAction, hseat, hVA] at h
    split_ifs at h with hmem hbound
    have hx : t' = showdownCheck (actorFlags (commitRaise t seat chips) seat) :=
      (Option.some.inj h).symm
    subst hx
    constructor
    · rw [showdownCheck_minRaise]
      show (commitRaise t seat chips).minRaise = t.minRaise
      exact commitRaise_short_minRaise t seat chips hge
    · intro s hs hne
      rw [congrFun (showdownCheck_players _) s, actorFlags_players_ne _ seat s hne,
        commitRaise_short_players t seat chips hge s hs hne]
      exact ⟨rfl, rfl⟩

/-- Witness for C3: the amended rule applied to the concrete short all-in
of `tblShort` (actor seat 0, raise to 12). -/
theorem short_allin_raise_no_reopen_witness :
    ((handleAction tblShort Act.raise 12).getD tblShort).minRaise = tblShort.minRaise ∧
    ∀ s ∈ tblShort.seats, s ≠ 0 →
      (((handleAction tblShort Act.raise 12).getD tblShort).players s).canRaise
          = (tblShort.players s).canRaise ∧
        (((handleAction tblShort Act.raise 12).getD tblShort).players s).acted = false :=
  short_allin_raise_no_reopen tblShort _ 12 0 rfl rfl (by decide)

lemma chipTotal_congr {t t' : TableSt} (hseats : t'.seats = t.seats)
    (h : ∀ s ∈ t.seats,
      (t'.players s).chips + t'.contrib s = (t.players s).chips + t.contrib s) :
    chipTotal t' = chipTotal t := by
  unfold chipTotal
  rw [hseats]
  exact congrArg List.sum (List.map_congr_left h)

lemma playerAddToPot_chips (p : PlayerSt) (c d : Int) (r : ℕ) :
    (playerAddToPot p c d r).chips = p.chips := by
  unfold playerAddToPot; split_ifs <;> rfl

lemma chipTotal_addToPot (t : TableSt) (seat : ℕ) (c : Int) :
    chipTotal (addToPot t seat c) = chipTotal t := by
  refine chipTotal_congr rfl ?_
  intro s _
  by_cases h : s = seat
  · subst h; simp only [addToPot]; simp
  · simp [addToPot, h]

lemma chipTotal_resetActed (t : TableSt) : chipTotal (resetActed t) = chipTotal t := by
  refine chipTotal_congr rfl ?_
  intro s _
  simp only [resetActed]
  split_ifs <;> rfl

lemma chipTotal_resetRoundPot (t : TableSt) : chipTotal (resetRoundPot t) = chipTotal t := by
  refine chipTotal_congr rfl ?_
  intro s _
  simp only [resetRoundPot]
  split_ifs <;> rfl

lemma chipTotal_resetCanRaise (t : TableSt) (k : Int) :
    chipTotal (resetCanRaise t k) = chipTotal t := by
  refine chipTotal_congr rfl ?_
  intro s _
  simp only [resetCanRaise]
  split_ifs <;> rfl

lemma chipTotal_showdownCheck (t : TableSt) : chipTotal (showdownCheck t) = chipTotal t := by
  unfold showdownCheck; split_ifs <;> rfl

lemma chipTotal_actorFlags (t : TableSt) (seat : ℕ) :
    chipTotal (actorFlags t seat) = chipTotal t := by
  refine chipTotal_congr rfl ?_
  intro s _
  simp only [actorFlags]
  split_ifs <;> rfl

lemma chipTotal_commitFold (t : TableSt) (seat : ℕ) :
    chipTotal (commitFold t seat) = chipTotal t := by
  refine chipTotal_congr rfl ?_
  intro s _
  simp only [commitFold]
  split_ifs <;> rfl

lemma chipTotal_commitCall (t : TableSt) (seat : ℕ) :
    chipTotal (commitCall t seat) = chipTotal t := by
  simp only [commitCall]
  rw [chipTotal_addToPot]
  refine chipTotal_congr rfl ?_
  intro s _
  by_cases h : s = seat
  · subst h; simp; split_ifs <;> simp [playerAddToPot_chips]
  · simp [h]

lemma chipTotal_commitBet (t : TableSt) (seat : ℕ) (chips : Int) :
    chipTotal (commitBet t seat chips) = chipTotal t := by
  simp only [commitBet]
  split_ifs with hfull
  · show chipTotal { resetCanRaise _ _ with minRaise := _ } = chipTotal t
    have h1 : chipTotal { resetCanRaise (resetActed (addToPot
        { t with players := fun s =>
            (if s = seat then playerAddToPot (t.players seat)
              (chips - (t.players seat).roundPot) 0 t.round else t.players s) }
        seat (chips - (t.players seat).roundPot))) (seat : Int) with
        minRaise := chips - (t.players seat).roundPot }
        = chipTotal (resetCanRaise (resetActed (addToPot
        { t with players := fun s =>
            (if s = seat then playerAddToPot (t.players seat)
              (chips - (t.players seat).roundPot) 0 t.round else t.players s) }
        seat (chips - (t.players seat).roundPot))) (seat : Int)) := rfl
    rw [h1, chipTotal_resetCanRaise, chipTotal_resetActed, chipTotal_addToPot]
    refine chipTotal_congr rfl ?_
    intro s _
    by_cases h : s = seat
    · subst h; simp [playerAddToPot_chips]
    · simp [h]
  · rw [chipTotal_resetActed, chipTotal_addToPot]
    refine chipTotal_congr rfl ?_
    intro s _
    by_cases h : s = seat
    · subst h; simp [playerAddToPot_chips]
    · simp [h]

lemma chipTotal_commitRaise (t : TableSt) (seat : ℕ) (chips : Int) :
    chipTotal (commitRaise t seat chips) = chipTotal t := by
  simp only [commitRaise]
  split_ifs with hfull
  · rw [chipTotal_resetActed, chipTotal_addToPot]
    refine chipTotal_congr ?_ ?_
    · rfl
    · intro s _
      by_cases h : s = seat
      · subst h
        simp only [if_pos rfl]
        simp only [resetCanRaise]
        split_ifs <;> simp [playerAddToPot_chips]
      · simp only [if_neg h]
        simp only [resetCanRaise]
        split_ifs <;> rfl
  · rw [chipTotal_resetActed, chipTotal_addToPot]
    refine chipTotal_congr rfl ?_
    intro s _
    by_cases h : s = seat
    · subst h; simp [playerAddToPot_chips]
    · simp [h]

lemma handleAction_success_shape (t : TableSt) (a : Act) (chips : Int) (t' : TableSt)
    (h : handleAction t a chips = some t') :
    ∃ seat, currentPlayerSeat t = some seat ∧
      t' = showdownCheck (actorFlags (commitAction t seat a chips) seat) := by
  rcases hcp : currentPlayerSeat t with _ | seat
  · simp only [handleAction, hcp] at h
    exact Option.noConfusion h
  · rcases hVA : ValidActions t with _ | acts
    · simp only [handleAction, hcp, hVA] at h
      exact Option.noConfusion h
    · simp only [handleAction, hcp, hVA] at h
      split_ifs at h with hmem hbound
      exact ⟨seat, rfl, (Option.some.inj h).symm⟩

lemma chipTotal_handleAction (t : TableSt) (a : Act) (chips : Int) (t' : TableSt)
    (h : handleAction t a chips = some t') : chipTotal t' = chipTotal t := by
  obtain ⟨seat, _, rfl⟩ := handleAction_success_shape t a chips t' h
  rw [chipTotal_showdownCheck, chipTotal_actorFlags]
  cases a with
  | fold => exact chipTotal_commitFold t seat
  | check => rfl
  | call => exact chipTotal_commitCall t seat
  | bet => exact chipTotal_commitBet t seat chips
  | raise => exact chipTotal_commitRaise t seat chips
  | stand => rfl

lemma chipTotal_applyForcedBet (t : TableSt) (seat : ℕ) (amount : Int) :
    chipTotal (applyForcedBet t seat amount) = chipTotal t := by
  by_cases hmem : seat ∈ t.seats
  · have h1 : ∀ u : TableSt, chipTotal { u with players := fun s =>
        (if s = seat then playerAddToPot (u.players s)
          (if amount > (t.players seat).chips then (t.players seat).chips else amount)
          t.stakes.ante t.round else u.players s) } = chipTotal u := by
      intro u
      refine chipTotal_congr rfl ?_
      intro s _
      by_cases h : s = seat
      · subst h; simp [playerAddToPot_chips]
      · simp [h]
    simp only [applyForcedBet, if_pos hmem]
    rw [h1, chipTotal_addToPot]
  · simp [applyForcedBet, hmem]

lemma chipTotal_setPlayers (t : TableSt) (f : ℕ → PlayerSt)
    (h : ∀ s ∈ t.seats, (f s).chips = (t.players s).chips) :
    chipTotal { t with players := f } = chipTotal t :=
  chipTotal_congr rfl (fun s hs => by rw [h s hs])

lemma chipTotal_setPlayersAction (t : TableSt) (f : ℕ → PlayerSt) (k : Int)
    (h : ∀ s ∈ t.seats, (f s).chips = (t.players s).chips) :
    chipTotal { t with players := f, action := k } = chipTotal t :=
  chipTotal_congr rfl (fun s hs => by rw [h s hs])

lemma chipTotal_doOneStraddleBet (t : TableSt) (seat : ℕ) (category : ℕ) :
    chipTotal (doOneStraddleBet t seat category) = chipTotal t := by
  by_cases hmem : seat ∈ t.seats ∧ (t.players seat).straddle
  · simp only [doOneStraddleBet, if_pos hmem]
    rw [chipTotal_setPlayersAction _ _ _ (fun s _ => by
      by_cases h : s = seat
      · subst h; simp [playerAddToPot_chips]
      · simp [h])]
    rw [chipTotal_addToPot]
    exact chipTotal_congr rfl (fun s _ => rfl)
  · unfold doOneStraddleBet
    rw [if_neg hmem]

lemma chipTotal_roundBookkeeping (t : TableSt) :
    chipTotal (roundBookkeeping t) = chipTotal t := by
  show chipTotal { resetCanRaise _ _ with minRaise := 0 } = chipTotal t
  have h1 : chipTotal { resetCanRaise (resetActed (resetRoundPot
      { t with round := t.round + 1 })) (-1) with minRaise := 0 }
      = chipTotal (resetCanRaise (resetActed (resetRoundPot
      { t with round := t.round + 1 })) (-1)) := rfl
  rw [h1, chipTotal_resetCanRaise, chipTotal_resetActed, chipTotal_resetRoundPot]
  exact chipTotal_congr rfl (fun s _ => rfl)

lemma chipTotal_applyStep (t : TableSt) (step : HandStep) :
    chipTotal (applyStep t step) = chipTotal t := by
  cases step with
  | act a chips =>
    rcases hha : handleAction t a chips with _ | u
    · simp [applyStep, hha]
    · simp only [applyStep, hha, Option.getD_some]
      exact chipTotal_handleAction t a chips u hha
  | forcedBet seat amount => exact chipTotal_applyForcedBet t seat amount
  | straddleBet seat category => exact chipTotal_doOneStraddleBet t seat category
  | setAction k => rfl
  | newRound => exact chipTotal_roundBookkeeping t

lemma chipTotal_applySteps :
    ∀ (steps : List HandStep) (t : TableSt), chipTotal (applySteps t steps) = chipTotal t := by
  intro steps
  induction steps with
  | nil => intro t; rfl
  | cons step rest ih =>
    intro t
    show chipTotal (applySteps (applyStep t step) rest) = chipTotal t
    rw [ih (applyStep t step), chipTotal_applyStep]

lemma chipTotal_setUpHand (t : TableSt) (newDeck : List Card) :
    chipTotal (setUpHandM t newDeck) = beginChipsSum (setUpHandM t newDeck) := by
  unfold chipTotal beginChipsSum
  refine congrArg List.sum (List.map_congr_left ?_)
  intro s hs
  have hs2 : s ∈ t.seats := hs
  simp [setUpHandM, hs2]

/-- **C6.** Chip conservation: every hand event — a validated fold, check,
call, bet or raise at the action seat, a forced bet, a straddle, a cursor
move, the between-rounds bookkeeping, and in particular every *legal*
action — leaves `Σ player.chips + pot.Chips()` over the seated players
unchanged; and after `setUpHand` records `begin_chips`, that sum equals
`Σ begin_chips` throughout the hand, for every sequence of events. -/
theorem chip_conservation :
    (∀ (t : TableSt) (step : HandStep), chipTotal (applyStep t step) = chipTotal t) ∧
    (∀ (t : TableSt) (newDeck : List Card) (steps : List HandStep),
      chipTotal (applySteps (setUpHandM t newDeck) steps)
        = beginChipsSum (setUpHandM t newDeck)) :=
  ⟨chipTotal_applyStep, fun t newDeck steps => by
    rw [chipTotal_applySteps steps (setUpHandM t newDeck), chipTotal_setUpHand]⟩

end Poker
